import Mathlib

/-!
Shallow embedding of the incremental collection loops of the tweet-scraper
repository (`twitter_scraper.py`, `youtube_scraper.py`, `amazon_scraper.py`)
together with theorems settling the specification claims about them.

Python strings are modelled over their character lists with structural
recursion (so every definition evaluates inside the kernel), machine floats
by exact mantissa/power-of-ten pairs, and exceptions by `Option`.
-/

namespace TweetScraper

set_option maxRecDepth 2000000

/-- Whitespace test used by the model of Python `str.strip`. -/
def pySpace (c : Char) : Bool := c.isWhitespace

/-- Core of `str.strip`: drop whitespace from both ends of a character list. -/
def stripChars (l : List Char) : List Char :=
  ((l.dropWhile pySpace).reverse.dropWhile pySpace).reverse

/-- Model of Python `str.strip()` with no argument. -/
def pyStrip (s : String) : String := String.mk (stripChars s.data)

/-- Does the character list start with the given pattern? -/
def startsWithChars : List Char → List Char → Bool
  | _, [] => true
  | [], _ :: _ => false
  | a :: l, b :: pat => a == b && startsWithChars l pat

/-- Does the pattern occur as a contiguous sublist?  (Python `needle in hay`;
the empty pattern always occurs.) -/
def containsChars : List Char → List Char → Bool
  | [], pat => startsWithChars [] pat
  | a :: rest, pat => startsWithChars (a :: rest) pat || containsChars rest pat

/-- Model of the Python substring test `needle in hay` on `str`. -/
def pySubstr (needle hay : String) : Bool := containsChars hay.data needle.data

/-- Model of Python `str.split(sep)` for a one-character separator. -/
def splitOnChar (c : Char) : List Char → List (List Char)
  | [] => [[]]
  | a :: rest =>
    let r := splitOnChar c rest
    if a == c then [] :: r
    else
      match r with
      | [] => [[a]]
      | h :: t => (a :: h) :: t

/-- Model of Python `str.replace(c, rep)` for a one-character pattern. -/
def replaceChar (c : Char) (rep : List Char) : List Char → List Char
  | [] => []
  | a :: rest => (if a == c then rep else [a]) ++ replaceChar c rep rest

/-- Numeric value of a nonempty all-digit character list (Python `int(s)`
restricted to digit strings); `none` on any other input. -/
def digitsValAux : List Char → ℕ → Option ℕ
  | [], acc => some acc
  | c :: rest, acc =>
    if c.isDigit then digitsValAux rest (acc * 10 + (c.toNat - 48)) else none

/-- Value of an all-digit string, or `none`. -/
def digitsVal : List Char → Option ℕ
  | [] => none
  | c :: rest => digitsValAux (c :: rest) 0

/-- Decimal digit character for a value below ten. -/
def digitChar (n : ℕ) : Char := Char.ofNat (48 + n)

/-- Decimal digits of a natural number (with fuel to keep recursion
structural; the fuel `n + 1` always suffices). -/
def natToCharsAux : ℕ → ℕ → List Char
  | 0, _ => []
  | fuel + 1, n =>
    if n < 10 then [digitChar n]
    else natToCharsAux fuel (n / 10) ++ [digitChar (n % 10)]

/-- Decimal representation of a natural number. -/
def natToChars (n : ℕ) : List Char := natToCharsAux (n + 1) n

/-- Model of Python `str(i)` on an integer. -/
def intToString (i : ℤ) : String :=
  if i < 0 then String.mk ('-' :: natToChars i.natAbs)
  else String.mk (natToChars i.natAbs)

/-- Apply an optional negation to a natural value. -/
def condNeg (neg : Bool) (n : ℕ) : ℤ := if neg then -(n : ℤ) else (n : ℤ)

/-- Model of Python `float(s)` on plain decimal literals: optional sign,
integer and/or fractional digits separated by a dot, surrounding whitespace
stripped.  The result `some (m, k)` is the exact value `m / 10 ^ k`; forms
outside this grammar yield `none` (the `ValueError` the source catches). -/
def pyFloatChars (l : List Char) : Option (ℤ × ℕ) :=
  let t := stripChars l
  let signBody : Bool × List Char :=
    match t with
    | '-' :: rest => (true, rest)
    | '+' :: rest => (false, rest)
    | _ => (false, t)
  let neg := signBody.1
  let body := signBody.2
  match splitOnChar '.' body with
  | [a] => (digitsVal a).map (fun n => (condNeg neg n, 0))
  | [a, b] =>
    if a = [] && b = [] then none
    else
      match (if a = [] then some 0 else digitsVal a),
            (if b = [] then some 0 else digitsVal b) with
      | some n, some m => some (condNeg neg (n * 10 ^ b.length + m), b.length)
      | _, _ => none
  | _ => none

/-- `pyFloatChars` on a `String`. -/
def pyFloat (s : String) : Option (ℤ × ℕ) := pyFloatChars s.data

/-- The rational value denoted by a mantissa/exponent pair (used only in
theorem statements). -/
def pyVal (x : ℤ × ℕ) : ℚ := (x.1 : ℚ) / (10 : ℚ) ^ x.2

/-- Model of Python `int(x)` on a float value: truncation toward zero. -/
def pyTruncParts (x : ℤ × ℕ) : ℤ := x.1.tdiv ((10 : ℤ) ^ x.2)

/-- Multiply a float value by a natural constant. -/
def mulNatParts (x : ℤ × ℕ) (n : ℕ) : ℤ × ℕ := (x.1 * (n : ℤ), x.2)

/-- Model of Python `str.isdigit()` (ASCII digits). -/
def pyIsDigitChars (l : List Char) : Bool := !l.isEmpty && l.all Char.isDigit

/-- `TwitterScraper.convert_to_number` (twitter_scraper.py lines 38-63):
strip commas, return the integer directly for all-digit strings, otherwise
look for the letters K, M, B anywhere in the uppercased string, remove all
occurrences of the matched letter and truncate the parsed float times the
corresponding power of 1000; any failure yields 0. -/
def convert_to_number (value : String) : ℤ :=
  let v := replaceChar ',' [] value.data
  if pyIsDigitChars v then ((digitsVal v).getD 0 : ℕ)
  else
    let u := v.map Char.toUpper
    if u.any (· == 'K') then
      match pyFloatChars (replaceChar 'K' [] u) with
      | some x => pyTruncParts (mulNatParts x 1000)
      | none => 0
    else if u.any (· == 'M') then
      match pyFloatChars (replaceChar 'M' [] u) with
      | some x => pyTruncParts (mulNatParts x 1000000)
      | none => 0
    else if u.any (· == 'B') then
      match pyFloatChars (replaceChar 'B' [] u) with
      | some x => pyTruncParts (mulNatParts x 1000000000)
      | none => 0
    else 0

/-- `YouTubeScraper.convert_to_number` (youtube_scraper.py lines 21-39):
empty input yields 0; otherwise lowercase, strip commas, detect the letters
k and m anywhere, remove them, and truncate the parsed float times the
multiplier; parse failure yields 0. -/
def yt_convert_to_number (text : String) : ℤ :=
  if text = "" then 0
  else
    let t := replaceChar ',' [] (text.data.map Char.toLower)
    if t.any (· == 'k') then
      match pyFloatChars (replaceChar 'k' [] t) with
      | some x => pyTruncParts (mulNatParts x 1000)
      | none => 0
    else if t.any (· == 'm') then
      match pyFloatChars (replaceChar 'm' [] t) with
      | some x => pyTruncParts (mulNatParts x 1000000)
      | none => 0
    else
      match pyFloatChars t with
      | some x => pyTruncParts x
      | none => 0

/-- Modelled from the spec's words, for comparison with `convert_to_number`:
"strip separators, detect a single trailing magnitude letter
case-insensitively, multiply by the corresponding power of 1000, truncate to
integer"; inputs that fail to parse map to 0 as in the spec's examples. -/
def specNumericSuffix (value : String) : ℤ :=
  let v := replaceChar ',' [] value.data
  match v.getLast? with
  | none => 0
  | some lastChar =>
    let mult : Option ℕ :=
      if lastChar == 'K' || lastChar == 'k' then some 1000
      else if lastChar == 'M' || lastChar == 'm' then some 1000000
      else if lastChar == 'B' || lastChar == 'b' then some 1000000000
      else none
    match mult with
    | some m =>
      match pyFloatChars v.dropLast with
      | some x => pyTruncParts (mulNatParts x m)
      | none => 0
    | none =>
      match pyFloatChars v with
      | some x => pyTruncParts x
      | none => 0

lemma dropWhile_dropWhile_self (p : Char → Bool) (l : List Char) :
    (l.dropWhile p).dropWhile p = l.dropWhile p := by
  induction l with
  | nil => simp
  | cons a l ih =>
    by_cases h : p a
    · simpa [List.dropWhile_cons, h] using ih
    · simp [List.dropWhile_cons, h]

lemma dropWhile_head_false (p : Char → Bool) (l : List Char) :
    ∀ a t, l.dropWhile p = a :: t → p a = false := by
  induction l with
  | nil => intro a t h; simp at h
  | cons b l ih =>
    intro a t h
    by_cases hb : p b
    · rw [List.dropWhile_cons, if_pos hb] at h
      exact ih a t h
    · rw [List.dropWhile_cons, if_neg hb] at h
      obtain ⟨rfl, -⟩ := List.cons.injEq .. ▸ h
      simpa using hb

lemma exists_append_dropWhile (p : Char → Bool) (l : List Char) :
    ∃ t, l = t ++ l.dropWhile p := by
  induction l with
  | nil => exact ⟨[], rfl⟩
  | cons a l ih =>
    by_cases h : p a
    · obtain ⟨t, ht⟩ := ih
      refine ⟨a :: t, ?_⟩
      rw [List.dropWhile_cons, if_pos h, List.cons_append, ← ht]
    · exact ⟨[], by rw [List.dropWhile_cons, if_neg h]; rfl⟩

lemma stripChars_idem (l : List Char) : stripChars (stripChars l) = stripChars l := by
  unfold stripChars
  set m := l.dropWhile pySpace with hm
  set r := m.reverse.dropWhile pySpace with hr
  have hA : r.reverse.dropWhile pySpace = r.reverse := by
    cases hrr : r.reverse with
    | nil => simp
    | cons a t' =>
      obtain ⟨t, ht⟩ := exists_append_dropWhile pySpace m.reverse
      have hm2 : m = r.reverse ++ t.reverse := by
        have h1 := congrArg List.reverse ht
        rw [List.reverse_reverse, List.reverse_append, ← hr] at h1
        exact h1
      have hma : m = a :: (t' ++ t.reverse) := by
        rw [hm2, hrr, List.cons_append]
      have hpa : pySpace a = false := by
        refine dropWhile_head_false pySpace l a (t' ++ t.reverse) ?_
        rw [← hm]; exact hma
      simp [List.dropWhile_cons, hpa]
  have hB : r.dropWhile pySpace = r := by
    rw [hr]; exact dropWhile_dropWhile_self pySpace m.reverse
  rw [hA, List.reverse_reverse, hB]

lemma pyStrip_idem (s : String) : pyStrip (pyStrip s) = pyStrip s := by
  unfold pyStrip
  rw [show (String.mk (stripChars s.data)).data = stripChars s.data from rfl,
    stripChars_idem]

/-- A timestamp as the scraper manipulates it: naive local field values.
Timezone offsets are parsed but never applied, matching `strftime` on the
stored fields of an aware `datetime`. -/
structure DateTime where
  year : ℕ
  month : ℕ
  day : ℕ
  hour : ℕ
  minute : ℕ
  second : ℕ
deriving Repr, DecidableEq

/-- Two-digit zero-padded decimal rendering. -/
def pad2 (n : ℕ) : String :=
  if n < 10 then String.mk ('0' :: natToChars n) else String.mk (natToChars n)

/-- Four-digit zero-padded decimal rendering. -/
def pad4 (n : ℕ) : String :=
  let d := natToChars n
  String.mk (List.replicate (4 - d.length) '0' ++ d)

/-- `strftime('%Y-%m-%d')` on the stored fields. -/
def fmtDate (d : DateTime) : String :=
  pad4 d.year ++ "-" ++ pad2 d.month ++ "-" ++ pad2 d.day

/-- `strftime('%H:%M:%S')` on the stored fields. -/
def fmtTime (d : DateTime) : String :=
  pad2 d.hour ++ ":" ++ pad2 d.minute ++ ":" ++ pad2 d.second

/-- The relative-time vocabulary of `parse_twitter_date` (line 92). -/
def relativeWords : List String :=
  ["now", "min", "hour", "day", "week", "month", "year"]

/-- Month abbreviations accepted by `strptime` `%b` (matched
case-insensitively). -/
def monthNames : List String :=
  ["JAN", "FEB", "MAR", "APR", "MAY", "JUN",
   "JUL", "AUG", "SEP", "OCT", "NOV", "DEC"]

/-- Index lookup for month abbreviations. -/
def monthIdx : List String → String → ℕ → Option ℕ
  | [], _, _ => none
  | mname :: rest, u, i => if u = mname then some i else monthIdx rest u (i + 1)

/-- One-based month number of an abbreviation token, case-insensitive. -/
def monthVal (tok : List Char) : Option ℕ :=
  (monthIdx monthNames (String.mk (tok.map Char.toUpper)) 0).map (· + 1)

/-- Gregorian leap-year test (as `datetime` validates dates). -/
def isLeap (y : ℕ) : Bool := y % 4 == 0 && (y % 100 != 0 || y % 400 == 0)

/-- Days in a month, as `datetime` validates day fields. -/
def daysInMonth (y m : ℕ) : ℕ :=
  if m = 2 then (if isLeap y then 29 else 28)
  else if m = 4 ∨ m = 6 ∨ m = 9 ∨ m = 11 then 30
  else 31

/-- Validity of a calendar date per the `datetime` constructor
(`MINYEAR = 1`; the year is at most four digits wherever this is called). -/
def validDate (y m d : ℕ) : Bool :=
  1 ≤ y && 1 ≤ m && m ≤ 12 && 1 ≤ d && d ≤ daysInMonth y m

/-- Whitespace-separated tokens of a character list. -/
def spaceTokens (l : List Char) : List (List Char) :=
  (splitOnChar ' ' l).filter (fun t => !t.isEmpty)

/-- Model of `datetime.strptime(s, '%I:%M %p')` (line 115), returning the
24-hour `(hour, minute)` of the parsed time: one or two digit hour in 1..12,
minutes in 0..59, then a case-insensitive meridiem token. -/
def parseClock12 (l : List Char) : Option (ℕ × ℕ) :=
  match spaceTokens l with
  | [hm, mer] =>
    let merL := mer.map Char.toLower
    if merL = ['a', 'm'] ∨ merL = ['p', 'm'] then
      match splitOnChar ':' hm with
      | [hs, ms] =>
        match digitsVal hs, digitsVal ms with
        | some h, some mi =>
          if 1 ≤ h && h ≤ 12 && hs.length ≤ 2 && mi ≤ 59 && ms.length ≤ 2 then
            some (h % 12 + (if merL = ['p', 'm'] then 12 else 0), mi)
          else none
        | _, _ => none
      | _ => none
    else none
  | _ => none

/-- Model of `datetime.strptime(s, '%H:%M')` (line 117): one or two digit
hour in 0..23 and minutes in 0..59. -/
def parseClock24 (l : List Char) : Option (ℕ × ℕ) :=
  match splitOnChar ':' l with
  | [hs, ms] =>
    match digitsVal hs, digitsVal ms with
    | some h, some mi =>
      if h ≤ 23 && hs.length ≤ 2 && mi ≤ 59 && ms.length ≤ 2 then some (h, mi)
      else none
    | _, _ => none
  | _ => none

/-- Model of `datetime.strptime(s, '%d %b %Y')` (line 129): day, month
abbreviation and four-digit year, validated as a calendar date. -/
def parseDateDMY (l : List Char) : Option (ℕ × ℕ × ℕ) :=
  match spaceTokens l with
  | [ds, mons, ys] =>
    match digitsVal ds, monthVal mons, digitsVal ys with
    | some d, some m, some y =>
      if ds.length ≤ 2 && ys.length = 4 && validDate y m d then some (y, m, d)
      else none
    | _, _, _ => none
  | _ => none

/-- Model of `datetime.strptime(s, '%b %d, %Y')` (line 127): month
abbreviation, day followed by a comma, four-digit year. -/
def parseDateMDY (l : List Char) : Option (ℕ × ℕ × ℕ) :=
  match spaceTokens l with
  | [mons, dcs, ys] =>
    match dcs.getLast? with
    | some ',' =>
      let ds := dcs.dropLast
      match digitsVal ds, monthVal mons, digitsVal ys with
      | some d, some m, some y =>
        if ds.length ≤ 2 && ys.length = 4 && validDate y m d then some (y, m, d)
        else none
      | _, _, _ => none
    | _ => none
  | _ => none

/-- `TwitterScraper.parse_twitter_date` (twitter_scraper.py lines 86-140).
Returns the `('%Y-%m-%d', '%H:%M:%S')` pair, or `none` for the source's
`(None, None)`.  Stage order: relative-time vocabulary short-circuits to
the collection time `now`; otherwise the text is split on the middle dot
into a time part and a date part, each parsed against the accepted clock
and date formats; any failure yields `none`. -/
def parse_twitter_date (now : DateTime) (timeText : String) : Option (String × String) :=
  let low := String.mk (timeText.data.map Char.toLower)
  if relativeWords.any (fun w => pySubstr w low) then
    some (fmtDate now, fmtTime now)
  else if ¬ (pySubstr "·" timeText) then none
  else
    match (splitOnChar '·' timeText.data).map stripChars with
    | [timePart, datePart] =>
      let lowTime := String.mk (timePart.map Char.toLower)
      let timeRes :=
        if pySubstr "pm" lowTime ∨ pySubstr "am" lowTime then parseClock12 timePart
        else parseClock24 timePart
      match timeRes with
      | none => none
      | some hm =>
        let timeStr := pad2 hm.1 ++ ":" ++ pad2 hm.2 ++ ":00"
        let dateRes :=
          if containsChars datePart [','] then parseDateMDY datePart
          else parseDateDMY datePart
        match dateRes with
        | none => none
        | some ymd =>
          some (pad4 ymd.1 ++ "-" ++ pad2 ymd.2.1 ++ "-" ++ pad2 ymd.2.2, timeStr)
    | _ => none

/-- The `YYYY-MM-DD` date part of an ISO timestamp, calendar-validated. -/
def parseIsoDate (l : List Char) : Option (ℕ × ℕ × ℕ) :=
  match splitOnChar '-' l with
  | [ys, ms, ds] =>
    match digitsVal ys, digitsVal ms, digitsVal ds with
    | some y, some m, some d =>
      if ys.length = 4 && ms.length = 2 && ds.length = 2 && validDate y m d then
        some (y, m, d)
      else none
    | _, _, _ => none
  | _ => none

/-- Split a (date-free) ISO time suffix at its timezone sign, if any. -/
def splitTz (l : List Char) : Option (List Char × Option (List Char)) :=
  if containsChars l ['+'] then
    match splitOnChar '+' l with
    | [a, b] => some (a, some b)
    | _ => none
  else if containsChars l ['-'] then
    match splitOnChar '-' l with
    | [a, b] => some (a, some b)
    | _ => none
  else some (l, none)

/-- The `HH[:MM[:SS[.fff[fff]]]]` time part of an ISO timestamp with
two-digit fields and an optional 3- or 6-digit fraction (dropped, as
`strftime('%H:%M:%S')` drops microseconds). -/
def parseIsoTime (l : List Char) : Option (ℕ × ℕ × ℕ) :=
  let sec : List Char → Option ℕ := fun ss =>
    match splitOnChar '.' ss with
    | [s2] =>
      match digitsVal s2 with
      | some s => if s2.length = 2 && s ≤ 59 then some s else none
      | none => none
    | [s2, frac] =>
      match digitsVal s2, digitsVal frac with
      | some s, some _ =>
        if s2.length = 2 && s ≤ 59 && (frac.length = 3 ∨ frac.length = 6) then some s
        else none
      | _, _ => none
    | _ => none
  match splitOnChar ':' l with
  | [hs] =>
    match digitsVal hs with
    | some h => if hs.length = 2 && h ≤ 23 then some (h, 0, 0) else none
    | none => none
  | [hs, ms] =>
    match digitsVal hs, digitsVal ms with
    | some h, some mi =>
      if hs.length = 2 && h ≤ 23 && ms.length = 2 && mi ≤ 59 then some (h, mi, 0)
      else none
    | _, _ => none
  | [hs, ms, ss] =>
    match digitsVal hs, digitsVal ms, sec ss with
    | some h, some mi, some s =>
      if hs.length = 2 && h ≤ 23 && ms.length = 2 && mi ≤ 59 then some (h, mi, s)
      else none
    | _, _, _ => none
  | _ => none

/-- Well-formedness of a `±HH:MM[:SS[.ffffff]]` timezone suffix (the offset
value itself is never applied). -/
def tzOk (l : List Char) : Bool :=
  let secsOk : List Char → Bool := fun c =>
    match splitOnChar '.' c with
    | [s2] => s2.length = 2 && (digitsVal s2).isSome
    | [s2, f] => s2.length = 2 && (digitsVal s2).isSome && (digitsVal f).isSome
    | _ => false
  match splitOnChar ':' l with
  | [a, b] => a.length = 2 && b.length = 2 && (digitsVal a).isSome && (digitsVal b).isSome
  | [a, b, c] =>
    a.length = 2 && b.length = 2 && (digitsVal a).isSome && (digitsVal b).isSome && secsOk c
  | _ => false

/-- Model of `datetime.fromisoformat` as used on line 220 (strict pre-3.11
grammar): ten-character date, then optionally a one-character separator, a
time part and a timezone suffix. -/
def pyFromIso (s : String) : Option DateTime :=
  let l := s.data
  if l.length < 10 then none
  else
    match parseIsoDate (l.take 10) with
    | none => none
    | some ymd =>
      match l.drop 10 with
      | [] => some ⟨ymd.1, ymd.2.1, ymd.2.2, 0, 0, 0⟩
      | _sep :: timeTz =>
        match splitTz timeTz with
        | none => none
        | some (tpart, tz) =>
          match parseIsoTime tpart with
          | none => none
          | some hms =>
            match tz with
            | none => some ⟨ymd.1, ymd.2.1, ymd.2.2, hms.1, hms.2.1, hms.2.2⟩
            | some z =>
              if tzOk z then some ⟨ymd.1, ymd.2.1, ymd.2.2, hms.1, hms.2.1, hms.2.2⟩
              else none

/-- Model of Python `s.replace('Z', '+00:00')` on a string. -/
def replaceZ (s : String) : String :=
  String.mk (replaceChar 'Z' ['+', '0', '0', ':', '0', '0'] s.data)

/-- The timestamp fallback chain of `perform_search` (twitter_scraper.py
lines 213-232): first `parse_twitter_date` on the displayed text, then the
machine `datetime` attribute via `fromisoformat` (an absent attribute raises
and is caught, a malformed one fails to parse), and finally the collection
time `now`. -/
def resolveTimestamp (now : DateTime) (timeText : String) (attr : Option String) :
    String × String :=
  match parse_twitter_date now timeText with
  | some p => p
  | none =>
    match attr with
    | some ts =>
      match pyFromIso (replaceZ ts) with
      | some dt => (fmtDate dt, fmtTime dt)
      | none => (fmtDate now, fmtTime now)
    | none => (fmtDate now, fmtTime now)

example :
    parse_twitter_date ⟨2025, 1, 2, 3, 4, 5⟩ "9:54 pm · 15 Oct 2018" =
      some ("2018-10-15", "21:54:00") := by decide
example :
    parse_twitter_date ⟨2025, 1, 2, 3, 4, 5⟩ "09:54 · Oct 15, 2018" =
      some ("2018-10-15", "09:54:00") := by decide
example :
    parse_twitter_date ⟨2025, 1, 2, 3, 4, 5⟩ "2 hours ago" =
      some ("2025-01-02", "03:04:05") := by decide
example : parse_twitter_date ⟨2025, 1, 2, 3, 4, 5⟩ "nonsense" = none := by decide
example :
    pyFromIso (replaceZ "2023-01-15T09:54:00.000Z") =
      some ⟨2023, 1, 15, 9, 54, 0⟩ := by decide
example :
    resolveTimestamp ⟨2025, 1, 2, 3, 4, 5⟩ "junk" (some "2023-01-15T09:54:00.000Z") =
      ("2023-01-15", "09:54:00") := by decide
example :
    resolveTimestamp ⟨2025, 1, 2, 3, 4, 5⟩ "junk" (some "broken") =
      ("2025-01-02", "03:04:05") := by decide
example :
    resolveTimestamp ⟨2025, 1, 2, 3, 4, 5⟩ "" none =
      ("2025-01-02", "03:04:05") := by decide

/-- The observable surface of one `article[data-testid="tweet"]` element:
each `find_element` call either yields a text/attribute or raises
(`none`), matching the per-item `try` of `perform_search`. -/
structure TweetElem where
  text : Option String
  username : Option String
  href : Option String
  timeText : Option String
  datetimeAttr : Option String
  stats : List String
deriving Repr, DecidableEq

/-- One accepted tweet record (the dict built on lines 236-247). -/
structure TweetRec where
  username : String
  text : String
  replies : String
  reposts : String
  likes : String
  views : String
  url : String
  time : String
  date : String
  rawTime : String
deriving Repr, DecidableEq

/-- `self.base_url` of the twitter scraper. -/
def baseUrl : String := "https://twitter.com"

/-- Simplified model of `urllib.parse.urljoin`: an absolute reference is
returned as is, otherwise it is appended to the base (the scraper only ever
joins absolute tweet permalinks). -/
def pyUrljoin (base href : String) : String :=
  if pySubstr "://" href then href else base ++ href

/-- `TwitterScraper.get_tweet_stats` (lines 65-84) restricted to its data:
positional stat texts converted by `convert_to_number` and stringified,
missing positions defaulting to 0. -/
def get_tweet_stats (stats : List String) : String × String × String × String :=
  let g : ℕ → ℤ := fun i =>
    if i < stats.length then convert_to_number (stats.getD i "") else 0
  (intToString (g 0), intToString (g 1), intToString (g 2), intToString (g 3))

/-- Assemble the record appended on lines 236-247, given the already
stripped and dedup-checked tweet text. -/
def mkTweetRec (now : DateTime) (text u h tt : String) (attr : Option String)
    (stats : List String) : TweetRec :=
  let username := String.mk ((splitOnChar '\n' u.data).headD [])
  let url := pyUrljoin baseUrl h
  let tt2 := pyStrip tt
  let dt := resolveTimestamp now tt2 attr
  let st := get_tweet_stats stats
  ⟨username, text, st.1, st.2.1, st.2.2.1, st.2.2.2, url, dt.2, dt.1, tt2⟩

/-- The per-item body of the inner `for` loop (lines 189-255): extract and
strip the tweet text, skip empty or already seen texts, then extract the
remaining fields (any raising extraction skips the item via the
`except ... continue`). -/
def admitElem (now : DateTime) (seen : List String) (e : TweetElem) : Option TweetRec :=
  match e.text with
  | none => none
  | some raw =>
    let text := pyStrip raw
    if text = "" ∨ seen.contains text then none
    else
      match e.username, e.href, e.timeText with
      | some u, some h, some tt => some (mkTweetRec now text u h tt e.datetimeAttr e.stats)
      | _, _, _ => none

/-- The inner `for tweet in tweet_elements` loop: threads the accepted
list, the `seen_texts` set and the `new_tweets_added` counter, breaking
once 150 records are held. -/
def processGo (now : DateTime) :
    List TweetRec → List String → ℕ → List TweetElem → List TweetRec × ℕ
  | tweets, _, added, [] => (tweets, added)
  | tweets, seen, added, e :: rest =>
    if 150 ≤ tweets.length then (tweets, added)
    else
      match admitElem now seen e with
      | none => processGo now tweets seen added rest
      | some r => processGo now (tweets ++ [r]) (r.text :: seen) (added + 1) rest

/-- `seen_texts = {t["text"].strip() for t in self.tweets}` (line 187). -/
def seenInit (tweets : List TweetRec) : List String :=
  tweets.map (fun r => pyStrip r.text)

/-- The mutable state of the collection loop of `perform_search`
(lines 169-280): accepted records, the consecutive-stall counter
`no_new_tweets_count`, `last_tweet_count`, `scroll_pause_time`, and whether
the `while` loop has exited. -/
structure TwitterState where
  tweets : List TweetRec
  noNewCount : ℕ
  lastTweetCount : ℕ
  pause : ℚ
  done : Bool

/-- Loop state on entry (lines 169-171; `self.tweets` starts empty). -/
def initState : TwitterState := ⟨[], 0, 0, 1 / 2, false⟩

/-- One iteration of the `while len(self.tweets) < 150` loop (lines
174-280): check the guard, process the currently visible elements, update
the stall counter, then either refresh (resetting only the counter), break
(the "No more tweets available" branch), or continue after updating
`last_tweet_count` and adapting `scroll_pause_time`. -/
def twitterStep (now : DateTime) (s : TwitterState) (items : List TweetElem) :
    TwitterState :=
  if s.done then s
  else if 150 ≤ s.tweets.length then { s with done := true }
  else
    let res := processGo now s.tweets (seenInit s.tweets) 0 items
    let noNew1 := if res.2 = 0 then s.noNewCount + 1 else 0
    if 3 ≤ noNew1 ∧ res.1.length ≠ s.lastTweetCount then
      { s with tweets := res.1, noNewCount := noNew1, done := true }
    else
      { tweets := res.1
        noNewCount := if 3 ≤ noNew1 then 0 else noNew1
        lastTweetCount := res.1.length
        pause := if 5 < res.2 then max (1 / 5) (s.pause - 1 / 10)
                 else min 1 (s.pause + 1 / 10)
        done := false }

/-- The collection loop run against a source behaviour `src`, where `src n`
is the element list the page presents at iteration `n` (any driver
behaviour, including responses to refreshes, is some such sequence). -/
def twitterRun (now : DateTime) (src : ℕ → List TweetElem) : ℕ → TwitterState
  | 0 => initState
  | n + 1 => twitterStep now (twitterRun now src n) (src n)

/-- The observable surface of one `ytd-video-renderer` element. -/
structure YtElem where
  title : Option String
  href : Option String
  channel : Option (Option String)
  metaTexts : List String
deriving Repr, DecidableEq

/-- One collected video record (youtube_scraper.py lines 121-127). -/
structure YtRec where
  title : String
  url : Option String
  channel_id : String
  views : ℤ
  age : String
deriving Repr, DecidableEq

/-- Channel id extraction (lines 99-104): absent element or absent href
attribute yield "Unknown", otherwise the last '/'-separated component. -/
def ytChannelId (channel : Option (Option String)) : String :=
  match channel with
  | none => "Unknown"
  | some none => "Unknown"
  | some (some cu) => String.mk ((splitOnChar '/' cu.data).getLastD [])

/-- View-count and age extraction from `#metadata-line span` texts
(lines 107-117). -/
def ytMeta (metaTexts : List String) : ℤ × String :=
  if 2 ≤ metaTexts.length then
    metaTexts.foldl
      (fun acc mt =>
        let low := String.mk (mt.data.map Char.toLower)
        if pySubstr "views" low then
          (yt_convert_to_number (String.mk ((splitOnChar ' ' low.data).headD [])), acc.2)
        else if ["year", "month", "week", "day", "hour"].any (fun u => pySubstr u low) then
          (acc.1, mt)
        else acc)
      (0, "Unknown")
  else (0, "Unknown")

/-- Build one video record; an absent title element raises and skips the
item (lines 92-131). -/
def ytBuild (e : YtElem) : Option YtRec :=
  match e.title with
  | none => none
  | some t => some ⟨pyStrip t, e.href, ytChannelId e.channel, (ytMeta e.metaTexts).1,
      (ytMeta e.metaTexts).2⟩

/-- `self.target_count` of the youtube scraper. -/
def ytTarget : ℕ := 50

/-- The inner `for video in video_elements[len(self.videos):]` loop
(lines 88-131): builds `new_videos`, checking duplicates only against
`self.videos` (which does not change during the loop). -/
def ytGo (videos : List YtRec) : List YtRec → List YtElem → List YtRec
  | newVideos, [] => newVideos
  | newVideos, e :: rest =>
    if ytTarget ≤ videos.length then newVideos
    else
      match ytBuild e with
      | none => ytGo videos newVideos rest
      | some r =>
        if videos.any (fun v => v.url == r.url) then ytGo videos newVideos rest
        else ytGo videos (newVideos ++ [r]) rest

/-- State of the youtube `while len(self.videos) < self.target_count`
loop. -/
structure YtState where
  videos : List YtRec
  done : Bool
deriving Repr, DecidableEq

/-- One iteration of the youtube loop (lines 82-144): process the slice of
currently visible elements past the already collected ones, extend by the
whole batch, and stop either at the guard or when scrolling loads nothing
new. -/
def ytStep (s : YtState) (elems : List YtElem) (canScroll : Bool) : YtState :=
  if s.done then s
  else if ytTarget ≤ s.videos.length then { s with done := true }
  else
    let newVideos := ytGo s.videos [] (elems.drop s.videos.length)
    let videos2 := if newVideos.isEmpty then s.videos else s.videos ++ newVideos
    if videos2.length < ytTarget then
      if canScroll then { videos := videos2, done := false }
      else { videos := videos2, done := true }
    else { videos := videos2, done := false }

/-- The youtube collection loop against a source behaviour. -/
def ytRun (src : ℕ → List YtElem) (canScroll : ℕ → Bool) : ℕ → YtState
  | 0 => ⟨[], false⟩
  | n + 1 => ytStep (ytRun src canScroll n) (src n) (canScroll n)

/-- The observable surface of one Amazon search-result element for price
extraction: the `a-price-whole` and `a-price-fraction` texts (absent means
the `find_element` raises) and the `a-price` element with its
`data-a-price` attribute. -/
structure ProductElem where
  priceWhole : Option String
  priceFraction : Option String
  priceAttr : Option (Option String)
deriving Repr, DecidableEq

/-- `AmazonScraper.extract_price` (amazon_scraper.py lines 110-120): the
primary whole+fraction representation, falling back on any failure to the
`data-a-price` attribute divided by 100, and `None` when both fail.  The
result value is an exact mantissa/power-of-ten pair. -/
def extract_price (e : ProductElem) : Option (ℤ × ℕ) :=
  let secondary : Option (ℤ × ℕ) :=
    match e.priceAttr with
    | some (some p) =>
      if p = "" then none
      else
        match pyFloat p with
        | some x => some (x.1, x.2 + 2)
        | none => none
    | some none => none
    | none => none
  match e.priceWhole, e.priceFraction with
  | some w, some f =>
    match pyFloatChars (replaceChar ',' [] w.data ++ '.' :: f.data) with
    | some x => some x
    | none => secondary
  | _, _ => secondary

lemma mkTweetRec_text (now : DateTime) (text u h tt : String) (attr : Option String)
    (stats : List String) : (mkTweetRec now text u h tt attr stats).text = text := rfl

/-- Every record accepted by `admitElem` carries an already-stripped,
nonempty text that was not in the seen set. -/
lemma admitElem_spec (now : DateTime) (seen : List String) (e : TweetElem) (r : TweetRec)
    (h : admitElem now seen e = some r) :
    pyStrip r.text = r.text ∧ r.text ≠ "" ∧ r.text ∉ seen := by
  cases hte : e.text with
  | none => simp [admitElem, hte] at h
  | some raw =>
    simp only [admitElem, hte] at h
    by_cases hc : pyStrip raw = "" ∨ seen.contains (pyStrip raw) = true
    · rw [if_pos hc] at h; cases h
    · rw [if_neg hc] at h
      push_neg at hc
      cases hu : e.username with
      | none => rw [hu] at h; simp at h
      | some u =>
        cases hh : e.href with
        | none => rw [hu, hh] at h; simp at h
        | some hrf =>
          cases htt : e.timeText with
          | none => rw [hu, hh, htt] at h; simp at h
          | some tt =>
            rw [hu, hh, htt] at h
            simp only [Option.some.injEq] at h
            subst h
            rw [mkTweetRec_text]
            refine ⟨pyStrip_idem raw, hc.1, ?_⟩
            intro hmem
            exact hc.2 (by simpa using hmem)

/-- A structurally complete element whose key is fresh is accepted, with
that key as its text. -/
lemma admitElem_of_good (now : DateTime) (seen : List String) (e : TweetElem) (raw : String)
    (hte : e.text = some raw) (hu : e.username.isSome) (hh : e.href.isSome)
    (htt : e.timeText.isSome) (hne : pyStrip raw ≠ "") (hns : pyStrip raw ∉ seen) :
    ∃ r, admitElem now seen e = some r ∧ r.text = pyStrip raw := by
  obtain ⟨u, hu⟩ := Option.isSome_iff_exists.mp hu
  obtain ⟨hr, hh⟩ := Option.isSome_iff_exists.mp hh
  obtain ⟨tt, htt⟩ := Option.isSome_iff_exists.mp htt
  refine ⟨mkTweetRec now (pyStrip raw) u hr tt e.datetimeAttr e.stats, ?_, rfl⟩
  have hcond : ¬ (pyStrip raw = "" ∨ (seen.contains (pyStrip raw) = true)) := by
    push_neg
    exact ⟨hne, by simpa using hns⟩
  simp only [admitElem, hte, hu, hh, htt]
  rw [if_neg hcond]

/-- `processGo` only appends, and preserves the stripped/nonempty and
no-duplicate invariants when the seen set covers the held texts. -/
lemma processGo_spec (now : DateTime) :
    ∀ (items : List TweetElem) (tweets : List TweetRec) (seen : List String) (added : ℕ),
      (∀ r ∈ tweets, pyStrip r.text ∈ seen) →
      (tweets.map fun r => pyStrip r.text).Nodup →
      (∀ r ∈ tweets, pyStrip r.text = r.text ∧ r.text ≠ "") →
      ∃ new, (processGo now tweets seen added items).1 = tweets ++ new ∧
        ((tweets ++ new).map fun r => pyStrip r.text).Nodup ∧
        (∀ r ∈ tweets ++ new, pyStrip r.text = r.text ∧ r.text ≠ "") := by
  intro items
  induction items with
  | nil =>
    intro tweets seen added _ h2 h3
    exact ⟨[], by simp [processGo], by simpa using h2, by simpa using h3⟩
  | cons e rest ih =>
    intro tweets seen added h1 h2 h3
    by_cases hlen : 150 ≤ tweets.length
    · exact ⟨[], by simp [processGo, if_pos hlen], by simpa using h2, by simpa using h3⟩
    · cases ha : admitElem now seen e with
      | none =>
        simp only [processGo, if_neg hlen, ha]
        exact ih tweets seen added h1 h2 h3
      | some r =>
        obtain ⟨hrt, hrne, hrns⟩ := admitElem_spec now seen e r ha
        have h1' : ∀ x ∈ tweets ++ [r], pyStrip x.text ∈ r.text :: seen := by
          intro x hx
          rcases List.mem_append.mp hx with hx | hx
          · exact List.mem_cons_of_mem _ (h1 x hx)
          · rw [List.mem_singleton.mp hx, hrt]; exact List.mem_cons_self _ _
        have hfresh : r.text ∉ tweets.map fun x => pyStrip x.text := by
          intro hmem
          obtain ⟨x, hx, hxe⟩ := List.mem_map.mp hmem
          exact hrns (hxe ▸ h1 x hx)
        have h2' : ((tweets ++ [r]).map fun x => pyStrip x.text).Nodup := by
          rw [List.map_append, List.nodup_append]
          refine ⟨h2, by simp, ?_⟩
          intro a ha' hb
          simp only [List.map_cons, List.map_nil, List.mem_singleton] at hb
          rw [hrt] at hb
          exact hfresh (hb ▸ ha')
        have h3' : ∀ x ∈ tweets ++ [r], pyStrip x.text = x.text ∧ x.text ≠ "" := by
          intro x hx
          rcases List.mem_append.mp hx with hx | hx
          · exact h3 x hx
          · rw [List.mem_singleton.mp hx]; exact ⟨hrt, hrne⟩
        obtain ⟨new', hnew, hnd, htr⟩ := ih (tweets ++ [r]) (r.text :: seen) (added + 1) h1' h2' h3'
        refine ⟨r :: new', ?_, ?_, ?_⟩
        · simp only [processGo, if_neg hlen, ha]
          rw [hnew, List.append_assoc]
          rfl
        · rw [show tweets ++ r :: new' = (tweets ++ [r]) ++ new' by simp]
          exact hnd
        · rw [show tweets ++ r :: new' = (tweets ++ [r]) ++ new' by simp]
          exact htr

/-- The number appended by `processGo` equals the growth of the counter. -/
lemma processGo_delta (now : DateTime) :
    ∀ (items : List TweetElem) (tweets : List TweetRec) (seen : List String) (added : ℕ),
      ∃ d, (processGo now tweets seen added items).1.length = tweets.length + d ∧
        (processGo now tweets seen added items).2 = added + d := by
  intro items
  induction items with
  | nil => intro tweets seen added; exact ⟨0, by simp [processGo]⟩
  | cons e rest ih =>
    intro tweets seen added
    by_cases hlen : 150 ≤ tweets.length
    · exact ⟨0, by simp [processGo, if_pos hlen]⟩
    · cases ha : admitElem now seen e with
      | none =>
        simp only [processGo, if_neg hlen, ha]
        exact ih tweets seen added
      | some r =>
        obtain ⟨d, hd1, hd2⟩ := ih (tweets ++ [r]) (r.text :: seen) (added + 1)
        refine ⟨d + 1, ?_, ?_⟩
        · simp only [processGo, if_neg hlen, ha]
          rw [hd1]
          simp
          omega
        · simp only [processGo, if_neg hlen, ha]
          rw [hd2]
          omega

/-- The accepted list never exceeds 150 records. -/
lemma processGo_cap (now : DateTime) :
    ∀ (items : List TweetElem) (tweets : List TweetRec) (seen : List String) (added : ℕ),
      tweets.length ≤ 150 → (processGo now tweets seen added items).1.length ≤ 150 := by
  intro items
  induction items with
  | nil => intro tweets seen added h; simpa [processGo] using h
  | cons e rest ih =>
    intro tweets seen added h
    by_cases hlen : 150 ≤ tweets.length
    · simpa [processGo, if_pos hlen] using h
    · cases ha : admitElem now seen e with
      | none =>
        simp only [processGo, if_neg hlen, ha]
        exact ih tweets seen added h
      | some r =>
        simp only [processGo, if_neg hlen, ha]
        refine ih (tweets ++ [r]) (r.text :: seen) (added + 1) ?_
        simp only [List.length_append, List.length_singleton]
        omega

/-- Structural completeness of an element: every extracted surface is
present, so the per-item `try` cannot raise. -/
def goodElem (e : TweetElem) : Bool :=
  e.text.isSome && e.username.isSome && e.href.isSome && e.timeText.isSome

/-- The identity key the loop deduplicates on: the stripped tweet text. -/
def elemKey (e : TweetElem) : String := pyStrip (e.text.getD "")

/-- Against a batch of structurally complete elements with fresh, nonempty,
pairwise distinct keys, the loop admits every element up to the cap. -/
lemma processGo_fill (now : DateTime) :
    ∀ (items : List TweetElem) (tweets : List TweetRec) (seen : List String) (added : ℕ),
      (∀ e ∈ items, goodElem e = true) →
      (items.map elemKey).Nodup →
      (∀ e ∈ items, elemKey e ∉ seen ∧ elemKey e ≠ "") →
      tweets.length ≤ 150 →
      (processGo now tweets seen added items).1.length =
        min 150 (tweets.length + items.length) := by
  intro items
  induction items with
  | nil =>
    intro tweets seen added _ _ _ h
    simp only [processGo, List.length_nil, Nat.add_zero]
    omega
  | cons e rest ih =>
    intro tweets seen added hgood hnd hfresh hcap
    by_cases hlen : 150 ≤ tweets.length
    · simp only [processGo, if_pos hlen, List.length_cons]
      omega
    · have hge : goodElem e = true := hgood e (List.mem_cons_self _ _)
      simp only [goodElem, Bool.and_eq_true] at hge
      obtain ⟨⟨⟨hte, hue⟩, hhe⟩, htte⟩ := hge
      obtain ⟨raw, hraw⟩ := Option.isSome_iff_exists.mp hte
      have hkey : elemKey e = pyStrip raw := by rw [elemKey, hraw]; rfl
      have hf := hfresh e (List.mem_cons_self _ _)
      obtain ⟨r, hr, hrt⟩ := admitElem_of_good now seen e raw hraw hue hhe htte
        (hkey ▸ hf.2) (hkey ▸ hf.1)
      simp only [processGo, if_neg hlen, hr]
      have hrest : (processGo now (tweets ++ [r]) (r.text :: seen) (added + 1) rest).1.length =
          min 150 ((tweets ++ [r]).length + rest.length) := by
        refine ih (tweets ++ [r]) (r.text :: seen) (added + 1)
          (fun x hx => hgood x (List.mem_cons_of_mem _ hx)) (List.Nodup.of_cons hnd) ?_ ?_
        · intro x hx
          have hfx := hfresh x (List.mem_cons_of_mem _ hx)
          refine ⟨?_, hfx.2⟩
          intro hmem
          rcases List.mem_cons.mp hmem with hm | hm
          · have : elemKey x ≠ elemKey e := by
              intro hcontra
              have := List.nodup_cons.mp hnd
              exact this.1 (hcontra ▸ List.mem_map_of_mem elemKey hx)
            rw [hrt, ← hkey] at hm
            exact this hm
          · exact hfx.1 hm
        · simp only [List.length_append, List.length_singleton]
          omega
      rw [hrest]
      simp only [List.length_append, List.length_singleton, List.length_cons,
        List.length_nil]
      omega

/-- The loop invariant of `perform_search`: no duplicate stripped texts,
every held text stripped and nonempty, at most 150 records, the
`last_tweet_count` baseline trails the current count while running, the
loop only exits with a full quota, and the scroll pause stays in
`[0.2, 1.0]`. -/
def Inv (s : TwitterState) : Prop :=
  (s.tweets.map fun r => pyStrip r.text).Nodup ∧
  (∀ r ∈ s.tweets, pyStrip r.text = r.text ∧ r.text ≠ "") ∧
  s.tweets.length ≤ 150 ∧
  (s.done = false → s.lastTweetCount = s.tweets.length) ∧
  (s.done = true → 150 ≤ s.tweets.length) ∧
  (1 / 5 : ℚ) ≤ s.pause ∧ s.pause ≤ 1

lemma inv_init : Inv initState := by
  refine ⟨by simp [initState], by simp [initState], by simp [initState], fun _ => rfl,
    ?_, by norm_num [initState], by norm_num [initState]⟩
  intro h
  simp [initState] at h

/-- One loop iteration preserves the invariant and only appends records. -/
lemma inv_step (now : DateTime) (s : TwitterState) (items : List TweetElem) (h : Inv s) :
    Inv (twitterStep now s items) ∧
      ∃ new, (twitterStep now s items).tweets = s.tweets ++ new := by
  obtain ⟨hnd, htr, hlen, hlast, hfull, hp1, hp2⟩ := h
  cases hd : s.done with
  | true =>
    rw [twitterStep, if_pos hd]
    exact ⟨⟨hnd, htr, hlen, hlast, hfull, hp1, hp2⟩, [], by simp⟩
  | false =>
    by_cases h150 : 150 ≤ s.tweets.length
    · rw [twitterStep, if_neg (by simp [hd]), if_pos h150]
      refine ⟨⟨hnd, htr, hlen, ?_, ?_, hp1, hp2⟩, [], by simp⟩
      · intro hc
        simp at hc
      · intro _
        exact h150
    · have hstep : twitterStep now s items =
          (let res := processGo now s.tweets (seenInit s.tweets) 0 items
           let noNew1 := if res.2 = 0 then s.noNewCount + 1 else 0
           if 3 ≤ noNew1 ∧ res.1.length ≠ s.lastTweetCount then
             { s with tweets := res.1, noNewCount := noNew1, done := true }
           else
             { tweets := res.1
               noNewCount := if 3 ≤ noNew1 then 0 else noNew1
               lastTweetCount := res.1.length
               pause := if 5 < res.2 then max (1 / 5) (s.pause - 1 / 10)
                        else min 1 (s.pause + 1 / 10)
               done := false }) := by
        rw [twitterStep, if_neg (by simp [hd]), if_neg h150]
      obtain ⟨new, hnew, hnd', htr'⟩ :=
        processGo_spec now items s.tweets (seenInit s.tweets) 0
          (fun r hr => List.mem_map_of_mem _ hr) hnd htr
      obtain ⟨d, hd1, hd2⟩ := processGo_delta now items s.tweets (seenInit s.tweets) 0
      have hcap := processGo_cap now items s.tweets (seenInit s.tweets) 0 hlen
      rw [hstep]
      simp only
      by_cases hbr : 3 ≤ (if (processGo now s.tweets (seenInit s.tweets) 0 items).2 = 0
            then s.noNewCount + 1 else 0) ∧
          (processGo now s.tweets (seenInit s.tweets) 0 items).1.length ≠ s.lastTweetCount
      · exfalso
        obtain ⟨hb1, hb2⟩ := hbr
        have hz : (processGo now s.tweets (seenInit s.tweets) 0 items).2 = 0 := by
          by_contra hnz
          rw [if_neg hnz] at hb1
          omega
        have hd0 : d = 0 := by omega
        exact hb2 (by rw [hd1, hd0, hlast hd]; omega)
      · rw [if_neg hbr]
        refine ⟨⟨?_, ?_, ?_, ?_, ?_, ?_, ?_⟩, new, ?_⟩
        · dsimp only
          rw [hnew]
          exact hnd'
        · dsimp only
          intro r hr
          rw [hnew] at hr
          exact htr' r hr
        · dsimp only
          exact hcap
        · intro _
          rfl
        · intro hc
          simp at hc
        · dsimp only
          by_cases h5 : 5 < (processGo now s.tweets (seenInit s.tweets) 0 items).2
          · rw [if_pos h5]; exact le_max_left _ _
          · rw [if_neg h5]
            refine le_min (by norm_num) ?_
            have h10 : (0 : ℚ) ≤ 1 / 10 := by norm_num
            linarith
        · dsimp only
          by_cases h5 : 5 < (processGo now s.tweets (seenInit s.tweets) 0 items).2
          · rw [if_pos h5]
            refine max_le (by norm_num) ?_
            have h10 : (0 : ℚ) ≤ 1 / 10 := by norm_num
            linarith
          · rw [if_neg h5]; exact min_le_left _ _
        · dsimp only
          exact hnew

/-- The invariant holds in every reachable state. -/
lemma inv_run (now : DateTime) (src : ℕ → List TweetElem) (n : ℕ) :
    Inv (twitterRun now src n) := by
  induction n with
  | zero => exact inv_init
  | succ n ih => exact (inv_step now (twitterRun now src n) (src n) ih).1

/-- Later states of a run extend earlier ones. -/
lemma run_append (now : DateTime) (src : ℕ → List TweetElem) (n m : ℕ) (h : n ≤ m) :
    ∃ t, (twitterRun now src m).tweets = (twitterRun now src n).tweets ++ t := by
  induction m with
  | zero =>
    refine ⟨[], ?_⟩
    have : n = 0 := Nat.le_zero.mp h
    subst this
    simp
  | succ m ih =>
    by_cases hm : n = m + 1
    · subst hm; exact ⟨[], by simp⟩
    · have hnm : n ≤ m := by omega
      obtain ⟨t1, ht1⟩ := ih hnm
      obtain ⟨-, t2, ht2⟩ :=
        inv_step now (twitterRun now src m) (src m) (inv_run now src m)
      exact ⟨t1 ++ t2, by rw [twitterRun, ht2, ht1, List.append_assoc]⟩

/-- Once 150 records are held, stepping never changes the record list. -/
lemma step_of_full (now : DateTime) (s : TwitterState) (items : List TweetElem)
    (h : 150 ≤ s.tweets.length) : (twitterStep now s items).tweets = s.tweets := by
  cases hd : s.done with
  | true => rw [twitterStep, if_pos hd]
  | false => rw [twitterStep, if_neg (by simp [hd]), if_pos h]

/-- Exact description of the run driven by a source that never presents an
element: the loop keeps cycling (refreshing every third stalled step) and
never exits. -/
lemma emptyRun_spec (now : DateTime) (n : ℕ) :
    ∃ c p, c ≤ 2 ∧ twitterRun now (fun _ => []) n = ⟨[], c, 0, p, false⟩ := by
  induction n with
  | zero => exact ⟨0, 1 / 2, by omega, rfl⟩
  | succ n ih =>
    obtain ⟨c, p, hc, hrun⟩ := ih
    rw [twitterRun, hrun]
    refine ⟨if 3 ≤ c + 1 then 0 else c + 1, min 1 (p + 1 / 10),
      by split_ifs <;> omega, ?_⟩
    simp [twitterStep, processGo, seenInit]

/-- Against a first batch of complete elements with distinct nonempty keys
and at least 150 items, the first iteration fills the quota exactly. -/
lemma run_one_full (now : DateTime) (src : ℕ → List TweetElem)
    (hgood : ∀ e ∈ src 0, goodElem e = true) (hnd : ((src 0).map elemKey).Nodup)
    (hne : ∀ e ∈ src 0, elemKey e ≠ "") (hlen : 150 ≤ (src 0).length) :
    (twitterRun now src 1).tweets.length = 150 := by
  have hfill := processGo_fill now (src 0) [] (seenInit []) 0 hgood hnd
    (fun e he => ⟨by simp [seenInit], hne e he⟩) (by simp)
  rw [show twitterRun now src 1 = twitterStep now initState (src 0) from rfl, twitterStep,
    if_neg (by simp [initState]), if_neg (by simp [initState])]
  simp only [initState]
  by_cases hbr : 3 ≤ (if (processGo now [] (seenInit []) 0 (src 0)).2 = 0 then 0 + 1 else 0) ∧
      (processGo now [] (seenInit []) 0 (src 0)).1.length ≠ 0
  · rw [if_pos hbr]
    dsimp only
    rw [hfill]
    simp only [List.length_nil, Nat.zero_add]
    omega
  · rw [if_neg hbr]
    dsimp only
    rw [hfill]
    simp only [List.length_nil, Nat.zero_add]
    omega

/-- Once the quota is reached, every later state still holds exactly 150
records. -/
lemma run_full_forever (now : DateTime) (src : ℕ → List TweetElem) (m k : ℕ)
    (hm : (twitterRun now src m).tweets.length = 150) (h : m ≤ k) :
    (twitterRun now src k).tweets.length = 150 := by
  induction k with
  | zero =>
    have h0 : m = 0 := by omega
    subst h0
    exact hm
  | succ k ih =>
    by_cases hk : m = k + 1
    · subst hk
      exact hm
    · have hmk : m ≤ k := by omega
      have hlen := ih hmk
      rw [twitterRun, step_of_full now _ (src k) (by omega)]
      exact hlen

/-- With an empty collected list, the youtube inner loop admits every
element that has a title. -/
lemma ytGo_all : ∀ (elems : List YtElem) (acc : List YtRec),
    (∀ e ∈ elems, e.title.isSome) →
    (ytGo [] acc elems).length = acc.length + elems.length := by
  intro elems
  induction elems with
  | nil => intro acc _; simp [ytGo]
  | cons e rest ih =>
    intro acc htitle
    have ht : e.title.isSome := htitle e (List.mem_cons_self _ _)
    obtain ⟨t, ht⟩ := Option.isSome_iff_exists.mp ht
    have hb : ytBuild e = some ⟨pyStrip t, e.href, ytChannelId e.channel,
        (ytMeta e.metaTexts).1, (ytMeta e.metaTexts).2⟩ := by
      rw [ytBuild, ht]
    rw [ytGo, if_neg (by simp [ytTarget]), hb]
    dsimp only
    rw [if_neg (by simp)]
    set r : YtRec := ⟨pyStrip t, e.href, ytChannelId e.channel, (ytMeta e.metaTexts).1,
      (ytMeta e.metaTexts).2⟩ with hrdef
    rw [ih (acc ++ [r]) (fun x hx => htitle x (List.mem_cons_of_mem _ hx))]
    simp only [List.length_append, List.length_singleton, List.length_cons,
      List.length_nil]
    omega

/-- From the initial state, one youtube iteration collects exactly the
admitted batch. -/
lemma ytStep_init (elems : List YtElem) (c : Bool) :
    (ytStep ⟨[], false⟩ elems c).videos = ytGo [] [] elems := by
  rw [ytStep]
  rw [if_neg (by simp), if_neg (by simp [ytTarget])]
  simp only [show (⟨[], false⟩ : YtState).videos = [] from rfl, List.length_nil,
    List.drop_zero, List.nil_append]
  by_cases hemp : (ytGo ([] : List YtRec) [] elems).isEmpty = true
  · rw [if_pos hemp]
    have he := List.isEmpty_iff.mp hemp
    rw [he]
    split_ifs <;> rfl
  · rw [if_neg hemp]
    split_ifs <;> rfl

/-- The first youtube iteration collects the whole first batch when every
element has a title. -/
lemma ytRun_one (src : ℕ → List YtElem) (canScroll : ℕ → Bool)
    (htitle : ∀ e ∈ src 0, e.title.isSome) :
    (ytRun src canScroll 1).videos.length = (src 0).length := by
  rw [show ytRun src canScroll 1 = ytStep ⟨[], false⟩ (src 0) (canScroll 0) from rfl,
    ytStep_init]
  simpa using ytGo_all (src 0) [] htitle

/-- Once the youtube target is reached, the next step stops with the
record list unchanged. -/
lemma ytStep_full (s : YtState) (elems : List YtElem) (c : Bool)
    (h : ytTarget ≤ s.videos.length) :
    (ytStep s elems c).videos = s.videos ∧
      (s.done = false → (ytStep s elems c).done = true) := by
  cases hd : s.done with
  | true => rw [ytStep, if_pos hd]; exact ⟨rfl, fun _ => hd⟩
  | false =>
    rw [ytStep, if_neg (by simp [hd]), if_pos h]
    exact ⟨rfl, fun _ => rfl⟩

/-- Does the refresh path of lines 264-269 fire at this state and batch:
loop still running, quota not reached, the batch yields nothing new, the
stall counter is about to reach 3, and the count matches the previous
iteration's baseline? -/
def refreshFires (now : DateTime) (s : TwitterState) (items : List TweetElem) : Bool :=
  !s.done && decide (s.tweets.length < 150) &&
    ((processGo now s.tweets (seenInit s.tweets) 0 items).2 == 0) &&
    decide (2 ≤ s.noNewCount) &&
    ((processGo now s.tweets (seenInit s.tweets) 0 items).1.length == s.lastTweetCount)

/-- A fixed collection time used by concrete witnesses. -/
def now0 : DateTime := ⟨2025, 1, 2, 3, 4, 5⟩

/-- A fully extractable tweet element. -/
def elem1 : TweetElem := ⟨some "hello", some "u", some "https://x", some "", none, []⟩

/-- A source that presents one tweet once and then nothing. -/
def src1 : ℕ → List TweetElem := fun n => if n = 0 then [elem1] else []

/-- The record the loop builds from `elem1` at time `now0`. -/
def rec0 : TweetRec :=
  ⟨"u", "hello", "0", "0", "0", "0", "https://x", "03:04:05", "2025-01-02", ""⟩

/-- A family of fully extractable tweet elements with distinct texts. -/
def mkElem (i : ℕ) : TweetElem :=
  ⟨some (String.mk [Char.ofNat (5000 + i)]), some "u", some "https://x", some "", none, []⟩

/-- 150 distinct fully extractable tweet elements. -/
def bigL : List TweetElem := (List.range 150).map mkElem

/-- A source presenting 150 distinct tweets at the first iteration. -/
def srcBig : ℕ → List TweetElem := fun n => if n = 0 then bigL else []

/-- A family of youtube elements with distinct urls. -/
def ytElemOf (i : ℕ) : YtElem :=
  ⟨some "v", some (String.mk [Char.ofNat (6000 + i)]), none, []⟩

/-- A youtube source presenting 52 distinct videos at the first
iteration. -/
def ytSrc52 : ℕ → List YtElem := fun n => if n = 0 then (List.range 52).map ytElemOf else []

/-- C1: for every run of the collection loop — at every iteration boundary
`n` and after processing any prefix of the next batch — the number of
accepted records equals the size of the seen-identity set (the set of
stripped tweet texts). -/
theorem c1_no_duplicates (now : DateTime) (src : ℕ → List TweetElem) (n k : ℕ) :
    ((processGo now (twitterRun now src n).tweets
        (seenInit (twitterRun now src n).tweets) 0 ((src n).take k)).1.map
        (fun r => pyStrip r.text)).toFinset.card =
      (processGo now (twitterRun now src n).tweets
        (seenInit (twitterRun now src n).tweets) 0 ((src n).take k)).1.length := by
  obtain ⟨hnd, htr, -⟩ := inv_run now src n
  obtain ⟨new, hnew, hnd', -⟩ := processGo_spec now ((src n).take k)
    (twitterRun now src n).tweets (seenInit (twitterRun now src n).tweets) 0
    (fun r hr => List.mem_map_of_mem _ hr) hnd htr
  rw [hnew, List.toFinset_card_of_nodup hnd', List.length_map]

/-- C2: the stall/refresh logic never takes its stop branch.  Driven by a
source that never yields an item, the loop refreshes every third stalled
step and runs forever with an empty output — it never reaches the
"no more tweets available" exit (so it does not stop within 2 × threshold
steps as claimed; the break on line 272 is unreachable because
`last_tweet_count` is rewritten every iteration). -/
theorem c2_stall_never_exhausts (now : DateTime) (n : ℕ) :
    (twitterRun now (fun _ => []) n).done = false ∧
      (twitterRun now (fun _ => []) n).tweets = [] := by
  obtain ⟨c, p, -, h⟩ := emptyRun_spec now n
  rw [h]
  exact ⟨rfl, rfl⟩

/-- C3 (counterexample): there is no step budget `maxSteps` after which
every run has terminated — the empty source keeps every run alive. -/
theorem c3_counterexample :
    ¬ ∃ B : ℕ, ∀ (now : DateTime) (src : ℕ → List TweetElem),
        (twitterRun now src B).done = true := by
  rintro ⟨B, h⟩
  obtain ⟨c, p, -, hrun⟩ := emptyRun_spec now0 B
  have hB := h now0 (fun _ => [])
  rw [hrun] at hB
  cases hB

/-- C3 (amended): the loop has no hard step bound: a source that never
yields an item keeps it running forever, and whenever the loop has
terminated it is because exactly 150 records were accepted. -/
theorem c3_no_step_budget (now : DateTime) (n : ℕ) :
    (twitterRun now (fun _ => []) n).done = false ∧
      ∀ (src : ℕ → List TweetElem), (twitterRun now src n).done = true →
        (twitterRun now src n).tweets.length = 150 := by
  constructor
  · obtain ⟨c, p, -, h⟩ := emptyRun_spec now n
    rw [h]
  · intro src hdone
    obtain ⟨-, -, hlen, -, hfull, -⟩ := inv_run now src n
    exact le_antisymm hlen (hfull hdone)

/-- C3 (witness for the amended claim). -/
theorem c3_no_step_budget_witness :
    (twitterRun now0 (fun _ => []) 2).done = false ∧
      (twitterRun now0 srcBig 2).tweets.length = 150 :=
  ⟨(c3_no_step_budget now0 2).1, (c3_no_step_budget now0 2).2 srcBig (by decide)⟩

/-- C4 (counterexample): the youtube loop can overshoot its target of 50 —
a first batch of 52 distinct videos is admitted whole, and the run then
stops with 52 records in the output. -/
theorem c4_counterexample :
    50 < (ytRun ytSrc52 (fun _ => true) 1).videos.length ∧
      (ytRun ytSrc52 (fun _ => true) 2).done = true ∧
      (ytRun ytSrc52 (fun _ => true) 2).videos.length = 52 :=
  ⟨by decide, by decide, by decide⟩

/-- C4 (amended): the twitter loop never holds more than 150 records and
collects exactly 150 whenever the source presents at least 150 complete
items with distinct nonempty identity keys; the youtube loop, presented a
first batch of at least 50 titled items with distinct urls, admits the
whole batch (at least 50, possibly more than 50) and stops at the next
step. -/
theorem c4_target_respected :
    (∀ (now : DateTime) (src : ℕ → List TweetElem) (n : ℕ),
        (twitterRun now src n).tweets.length ≤ 150) ∧
    (∀ (now : DateTime) (src : ℕ → List TweetElem),
        (∀ e ∈ src 0, goodElem e = true) →
        ((src 0).map elemKey).Nodup →
        (∀ e ∈ src 0, elemKey e ≠ "") →
        150 ≤ (src 0).length →
        ∀ m, 1 ≤ m → (twitterRun now src m).tweets.length = 150) ∧
    (∀ (src : ℕ → List YtElem) (canScroll : ℕ → Bool),
        (∀ e ∈ src 0, e.title.isSome) →
        ((src 0).map (fun e => e.href)).Nodup →
        50 ≤ (src 0).length →
        50 ≤ (ytRun src canScroll 1).videos.length ∧
          (ytRun src canScroll 1).videos.length = (src 0).length ∧
          (ytRun src canScroll 2).done = true ∧
          (ytRun src canScroll 2).videos = (ytRun src canScroll 1).videos) := by
  refine ⟨?_, ?_, ?_⟩
  · intro now src n
    obtain ⟨-, -, hlen, -⟩ := inv_run now src n
    exact hlen
  · intro now src hgood hnd hne hlen m hm
    exact run_full_forever now src 1 m (run_one_full now src hgood hnd hne hlen) hm
  · intro src canScroll htitle _ hlen
    have h1 := ytRun_one src canScroll htitle
    have hfull : ytTarget ≤ (ytRun src canScroll 1).videos.length := by
      rw [h1]; exact hlen
    obtain ⟨hv, hdone⟩ := ytStep_full (ytRun src canScroll 1) (src 1) (canScroll 1) hfull
    refine ⟨by rw [h1]; exact hlen, h1, ?_, hv⟩
    refine hdone ?_
    have hlen2 : ytTarget ≤ (ytGo [] [] (src 0)).length := by
      have hall := ytGo_all (src 0) [] htitle
      simp only [List.length_nil, Nat.zero_add] at hall
      rw [hall]
      exact hlen
    rw [show ytRun src canScroll 1 = ytStep ⟨[], false⟩ (src 0) (canScroll 0) from rfl,
      ytStep, if_neg (by simp), if_neg (by simp [ytTarget])]
    simp only [show ((⟨[], false⟩ : YtState)).videos = [] from rfl, List.length_nil,
      List.drop_zero, List.nil_append]
    by_cases hemp : (ytGo ([] : List YtRec) [] (src 0)).isEmpty = true
    · exfalso
      rw [List.isEmpty_iff.mp hemp] at hlen2
      simp [ytTarget] at hlen2
    · rw [if_neg hemp, if_neg (Nat.not_lt.mpr hlen2)]

/-- C4 (witness for the amended claim). -/
theorem c4_target_respected_witness :
    (twitterRun now0 srcBig 0).tweets.length ≤ 150 ∧
      (twitterRun now0 srcBig 1).tweets.length = 150 ∧
      50 ≤ (ytRun ytSrc52 (fun _ => true) 1).videos.length :=
  ⟨c4_target_respected.1 now0 srcBig 0,
    c4_target_respected.2.1 now0 srcBig (by decide) (by decide) (by decide) (by decide)
      1 (by decide),
    (c4_target_respected.2.2 ytSrc52 (fun _ => true) (by decide) (by decide) (by decide)).1⟩

/-- C5: the timestamp resolver is total and tries its stages in order: a
successful parse of the displayed text (including the relative-time
short-circuit, which maps to the collection time) is used as is; otherwise
a parseable machine attribute is used; otherwise — attribute missing or
malformed — the collection time is returned, so the final stage always
succeeds. -/
theorem c5_timestamp_fallback_total :
    (∀ (now : DateTime) (timeText : String) (attr : Option String) (p : String × String),
        parse_twitter_date now timeText = some p →
        resolveTimestamp now timeText attr = p) ∧
    (∀ (now : DateTime) (timeText : String) (ts : String) (dt : DateTime),
        parse_twitter_date now timeText = none →
        pyFromIso (replaceZ ts) = some dt →
        resolveTimestamp now timeText (some ts) = (fmtDate dt, fmtTime dt)) ∧
    (∀ (now : DateTime) (timeText : String) (ts : String),
        parse_twitter_date now timeText = none →
        pyFromIso (replaceZ ts) = none →
        resolveTimestamp now timeText (some ts) = (fmtDate now, fmtTime now)) ∧
    (∀ (now : DateTime) (timeText : String),
        parse_twitter_date now timeText = none →
        resolveTimestamp now timeText none = (fmtDate now, fmtTime now)) ∧
    (∀ (now : DateTime) (timeText : String) (attr : Option String),
        relativeWords.any
          (fun w => pySubstr w (String.mk (timeText.data.map Char.toLower))) = true →
        resolveTimestamp now timeText attr = (fmtDate now, fmtTime now)) := by
  refine ⟨?_, ?_, ?_, ?_, ?_⟩
  · intro now timeText attr p h
    simp only [resolveTimestamp, h]
  · intro now timeText ts dt h1 h2
    simp only [resolveTimestamp, h1, h2]
  · intro now timeText ts h1 h2
    simp only [resolveTimestamp, h1, h2]
  · intro now timeText h1
    simp only [resolveTimestamp, h1]
  · intro now timeText attr hrel
    have hp : parse_twitter_date now timeText = some (fmtDate now, fmtTime now) := by
      simp only [parse_twitter_date, hrel, if_true]
    simp only [resolveTimestamp, hp]

/-- C5 (witness): each stage exercised at a concrete input. -/
theorem c5_timestamp_fallback_total_witness :
    resolveTimestamp now0 "9:54 pm · 15 Oct 2018" (some "x") = ("2018-10-15", "21:54:00") ∧
      resolveTimestamp now0 "junk" (some "2023-01-15T09:54:00.000Z") =
        ("2023-01-15", "09:54:00") ∧
      resolveTimestamp now0 "junk" (some "broken") = ("2025-01-02", "03:04:05") ∧
      resolveTimestamp now0 "junk" none = ("2025-01-02", "03:04:05") ∧
      resolveTimestamp now0 "2 hours ago" (some "x") = ("2025-01-02", "03:04:05") :=
  ⟨c5_timestamp_fallback_total.1 now0 "9:54 pm · 15 Oct 2018" (some "x")
      ("2018-10-15", "21:54:00") (by decide),
    c5_timestamp_fallback_total.2.1 now0 "junk" "2023-01-15T09:54:00.000Z"
      ⟨2023, 1, 15, 9, 54, 0⟩ (by decide) (by decide),
    c5_timestamp_fallback_total.2.2.1 now0 "junk" "broken" (by decide) (by decide),
    c5_timestamp_fallback_total.2.2.2.1 now0 "junk" (by decide),
    c5_timestamp_fallback_total.2.2.2.2 now0 "2 hours ago" (some "x") (by decide)⟩

/-- C6 (counterexample): the source detects the magnitude letter anywhere,
not only trailing: on "1K5" the code yields 15000 while the spec's
single-trailing-letter normalization yields 0. -/
theorem c6_counterexample :
    convert_to_number "1K5" = 15000 ∧ specNumericSuffix "1K5" = 0 ∧
      (15000 : ℤ) ≠ 0 :=
  ⟨by decide, by decide, by decide⟩

/-- C6 (amended): the numeric-suffix normalization strips separators,
detects a magnitude letter occurring anywhere in the string
case-insensitively (all its occurrences are removed before the numeric
parse), multiplies by the corresponding power of 1000 and truncates; in
particular both implementations map "1.2K" to 1200, "3M" to 3000000,
"250" to 250, "" and "N/A" to 0, and "1K5" to 15000. -/
theorem c6_numeric_suffix :
    convert_to_number "1.2K" = 1200 ∧ convert_to_number "3M" = 3000000 ∧
      convert_to_number "250" = 250 ∧ convert_to_number "" = 0 ∧
      convert_to_number "N/A" = 0 ∧ convert_to_number "1K5" = 15000 ∧
      convert_to_number "1.2k" = 1200 ∧ convert_to_number "12,345" = 12345 ∧
      yt_convert_to_number "1.2K" = 1200 ∧ yt_convert_to_number "3M" = 3000000 ∧
      yt_convert_to_number "250" = 250 ∧ yt_convert_to_number "" = 0 ∧
      yt_convert_to_number "N/A" = 0 ∧ yt_convert_to_number "1k5" = 15000 := by
  decide

/-- C7: when the refresh path fires at iteration `n`, the next state has a
cleared stall counter and an unchanged record list; and a record collected
by iteration `n` appears exactly once in every later state — a refresh
never causes re-admission. -/
theorem c7_refresh_frame (now : DateTime) (src : ℕ → List TweetElem) (n m : ℕ)
    (r : TweetRec) (hfire : refreshFires now (twitterRun now src n) (src n) = true)
    (hm : n + 1 ≤ m) (hr : r ∈ (twitterRun now src n).tweets) :
    (twitterRun now src (n + 1)).noNewCount = 0 ∧
      (twitterRun now src (n + 1)).tweets = (twitterRun now src n).tweets ∧
      ((twitterRun now src m).tweets.map (fun x => x.text)).count r.text = 1 := by
  simp only [refreshFires, Bool.and_eq_true, Bool.not_eq_true', beq_iff_eq,
    decide_eq_true_eq] at hfire
  obtain ⟨⟨⟨⟨hdone, hlt⟩, hz⟩, hc2⟩, heq⟩ := hfire
  obtain ⟨hnd, htr, -⟩ := inv_run now src n
  obtain ⟨new, hnew, -, -⟩ := processGo_spec now (src n) (twitterRun now src n).tweets
    (seenInit (twitterRun now src n).tweets) 0
    (fun x hx => List.mem_map_of_mem _ hx) hnd htr
  obtain ⟨d, hd1, hd2⟩ := processGo_delta now (src n) (twitterRun now src n).tweets
    (seenInit (twitterRun now src n).tweets) 0
  have hd0 : d = 0 := by omega
  have hres : (processGo now (twitterRun now src n).tweets
      (seenInit (twitterRun now src n).tweets) 0 (src n)).1 =
      (twitterRun now src n).tweets := by
    have hlnew : new.length = 0 := by
      have := congrArg List.length hnew
      simp only [List.length_append] at this
      omega
    rw [hnew, List.length_eq_zero.mp hlnew, List.append_nil]
  have hstep : twitterRun now src (n + 1) =
      { tweets := (twitterRun now src n).tweets
        noNewCount := 0
        lastTweetCount := (twitterRun now src n).tweets.length
        pause := min 1 ((twitterRun now src n).pause + 1 / 10)
        done := false } := by
    have heq2 : (twitterRun now src n).tweets.length =
        (twitterRun now src n).lastTweetCount := by
      rw [← hres]
      exact heq
    rw [twitterRun, twitterStep, if_neg (by simp [hdone]), if_neg (by omega)]
    simp only
    rw [show (if (processGo now (twitterRun now src n).tweets
        (seenInit (twitterRun now src n).tweets) 0 (src n)).2 = 0
        then (twitterRun now src n).noNewCount + 1 else 0) =
        (twitterRun now src n).noNewCount + 1 from if_pos hz]
    rw [if_neg (by
      rintro ⟨-, hne⟩
      rw [hres] at hne
      exact hne heq2)]
    rw [if_pos (show 3 ≤ (twitterRun now src n).noNewCount + 1 by omega)]
    rw [show (if 5 < (processGo now (twitterRun now src n).tweets
        (seenInit (twitterRun now src n).tweets) 0 (src n)).2
        then max (1 / 5) ((twitterRun now src n).pause - 1 / 10)
        else min 1 ((twitterRun now src n).pause + 1 / 10)) =
        min 1 ((twitterRun now src n).pause + 1 / 10) from
      if_neg (by rw [hz]; omega)]
    rw [hres]
  refine ⟨by rw [hstep], by rw [hstep], ?_⟩
  obtain ⟨t, ht⟩ := run_append now src n m (by omega)
  obtain ⟨hndm, -, -⟩ := inv_run now src m
  have hndt : ((twitterRun now src m).tweets.map (fun x => x.text)).Nodup := by
    refine List.Nodup.of_map pyStrip ?_
    rw [List.map_map]
    exact hndm
  refine List.count_eq_one_of_mem hndt ?_
  rw [ht]
  exact List.mem_map_of_mem _ (List.mem_append_left _ hr)

/-- C7 (witness): the source presents one tweet, then stalls; the refresh
fires at iteration 3 and the record survives it exactly once. -/
theorem c7_refresh_frame_witness :
    (twitterRun now0 src1 4).noNewCount = 0 ∧
      (twitterRun now0 src1 4).tweets = (twitterRun now0 src1 3).tweets ∧
      ((twitterRun now0 src1 4).tweets.map (fun x => x.text)).count rec0.text = 1 :=
  c7_refresh_frame now0 src1 3 4 rec0 (by decide) (by decide) (by decide)

/-- C8: after any run, the scroll pause stays within the configured
interval from 0.2 to 1.0 seconds. -/
theorem c8_pacer_bounds (now : DateTime) (src : ℕ → List TweetElem) (n : ℕ) :
    (1 / 5 : ℚ) ≤ (twitterRun now src n).pause ∧ (twitterRun now src n).pause ≤ 1 := by
  obtain ⟨-, -, -, -, -, hp1, hp2⟩ := inv_run now src n
  exact ⟨hp1, hp2⟩

/-- C9: when the primary whole+fraction price representation is missing but
the encoded cent attribute is present and parseable, `extract_price`
returns the attribute value divided by 100, not `None`. -/
theorem c9_extraction_degradation (e : ProductElem) (s : String) (x : ℤ × ℕ)
    (hPrimary : e.priceWhole = none ∨ e.priceFraction = none)
    (hAttr : e.priceAttr = some (some s)) (hne : s ≠ "")
    (hparse : pyFloat s = some x) :
    extract_price e = some (x.1, x.2 + 2) ∧
      pyVal (x.1, x.2 + 2) = pyVal x / 100 := by
  constructor
  · have hsec : (match e.priceAttr with
        | some (some p) =>
          if p = "" then none
          else
            match pyFloat p with
            | some y => some (y.1, y.2 + 2)
            | none => none
        | some none => none
        | none => (none : Option (ℤ × ℕ))) = some (x.1, x.2 + 2) := by
      rw [hAttr]
      simp only [if_neg hne, hparse]
    rcases hPrimary with hw | hf
    · rw [extract_price, hw]
      cases e.priceFraction <;> exact hsec
    · rw [extract_price, hf]
      cases e.priceWhole <;> exact hsec
  · rw [pyVal, pyVal]
    dsimp only
    rw [pow_add, div_div]
    norm_num

/-- C9 (witness): a handle with only the cent attribute "1999" extracts to
19.99. -/
theorem c9_extraction_degradation_witness :
    extract_price ⟨none, none, some (some "1999")⟩ = some (1999, 2) ∧
      pyVal (1999, 2) = pyVal (1999, 0) / 100 :=
  c9_extraction_degradation ⟨none, none, some (some "1999")⟩ "1999" (1999, 0)
    (Or.inl rfl) rfl (by decide) (by decide)

/-- C10: every record the loop accepts has a nonempty identity text that is
already stripped — items whose text is empty after stripping are skipped
before deduplication. -/
theorem c10_nonempty_identity (now : DateTime) (src : ℕ → List TweetElem) (n : ℕ)
    (r : TweetRec) (hr : r ∈ (twitterRun now src n).tweets) :
    r.text ≠ "" ∧ pyStrip r.text = r.text := by
  obtain ⟨-, htr, -⟩ := inv_run now src n
  exact ⟨(htr r hr).2, (htr r hr).1⟩

/-- C10 (witness). -/
theorem c10_nonempty_identity_witness :
    rec0.text ≠ "" ∧ pyStrip rec0.text = rec0.text :=
  c10_nonempty_identity now0 src1 1 rec0 (by decide)

example :
    extract_price ⟨some "1,299", some "99", none⟩ = some (129999, 2) := by decide
example :
    extract_price ⟨none, none, some (some "1999")⟩ = some (1999, 2) := by decide
example : extract_price ⟨none, none, some (some "")⟩ = none := by decide
example : extract_price ⟨none, none, none⟩ = none := by decide

example : convert_to_number "1.2K" = 1200 := by decide
example : convert_to_number "3M" = 3000000 := by decide
example : convert_to_number "250" = 250 := by decide
example : convert_to_number "" = 0 := by decide
example : convert_to_number "N/A" = 0 := by decide
example : convert_to_number "1K5" = 15000 := by decide
example : convert_to_number "12,345" = 12345 := by decide
example : specNumericSuffix "1K5" = 0 := by decide
example : specNumericSuffix "1.2K" = 1200 := by decide
example : yt_convert_to_number "1.2K" = 1200 := by decide
example : yt_convert_to_number "3M" = 3000000 := by decide
example : yt_convert_to_number "250" = 250 := by decide
example : yt_convert_to_number "" = 0 := by decide
example : yt_convert_to_number "N/A" = 0 := by decide

end TweetScraper
